import Mathlib

/-
Verification of the rate-controlled HTTP load tester
(source file: py-ai/load-test/run.py).

Shallow embedding conventions:
* Python strings are lists of characters.
* Python floats are modelled by exact rationals; the float "nan" sentinel
  returned by the statistics helpers is modelled by the value none of an
  Option type, so a function that can return nan returns Option.
* Python's stable sort is modelled with List.insertionSort, which is stable
  and structurally recursive.
* The network, the random generator and the monotonic clock are modelled as
  explicit oracle parameters: a fetch function mapping a URL to its outcome,
  a pick function giving the random index stream, and a tick count giving
  how many scheduler iterations the deadline permitted.
-/

namespace LoadTest

/-- Python strings modelled as lists of characters. -/
abbrev Str := List Char

/-- The characters Python's strip() removes: space, tab, newline, carriage
return, vertical tab, form feed. -/
def pyIsSpace (c : Char) : Bool :=
  c = ' ' || c = '\t' || c = '\n' || c = '\r' || c.toNat = 11 || c.toNat = 12

/-- Python str.strip(): drop whitespace from both ends. -/
def pyStrip (s : Str) : Str :=
  ((s.dropWhile pyIsSpace).reverse.dropWhile pyIsSpace).reverse

/-- Python str.rstrip(c) for a single strip character: drop trailing
occurrences of c. -/
def pyRstrip (c : Char) (s : Str) : Str :=
  (s.reverse.dropWhile (· = c)).reverse

/-- Embeds list(dict.fromkeys(raw)): keep the first occurrence of each
element, in order of first occurrence (keys are inserted left to right and
an insertion of an existing key keeps its position). -/
def dedupKeepFirst (l : List Str) : List Str :=
  l.foldl (fun acc x => if x ∈ acc then acc else acc ++ [x]) []

/-- The raw token list of parse_uids_file: replace every newline by a comma,
split on commas, strip each part, keep the nonempty parts (the loop that
builds raw in the source). -/
def rawTokens (text : Str) : List Str :=
  (((text.map (fun ch => if ch = '\n' then ',' else ch)).splitOn ',').map
    pyStrip).filter (fun p => p ≠ [])

/-- Embeds parse_uids_file: tokenize, then dedupe preserving order. -/
def parse_uids_file (text : Str) : List Str :=
  dedupKeepFirst (rawTokens text)

/-- Floor of a rational, written with numerator/denominator division so that
it is kernel-computable (equal to Int.floor, see pyFloor_eq). -/
def pyFloor (x : ℚ) : ℤ :=
  x.num / (x.den : ℤ)

theorem pyFloor_eq (x : ℚ) : pyFloor x = ⌊x⌋ :=
  Rat.floor_def.symm

/-- Python 3's round() to an integer: round half to even (banker's
rounding); f is the floor and x - f the fractional part. -/
def pyRound (x : ℚ) : ℤ :=
  if x - (pyFloor x : ℚ) < 1 / 2 then pyFloor x
  else if 1 / 2 < x - (pyFloor x : ℚ) then pyFloor x + 1
  else if pyFloor x % 2 = 0 then pyFloor x else pyFloor x + 1

/-- Embeds sorted(range(len(values)), key=lambda i: values[i]): the indices
0..n-1 stably sorted by their value. -/
def argsortIdx (values : List ℚ) : List ℕ :=
  List.insertionSort (fun i j => values.getD i 0 ≤ values.getD j 0)
    (List.range values.length)

/-- Embeds pct(values, p): nearest-rank percentile. Empty list gives the nan
sentinel (none); p <= 0 gives the first element, p >= 100 the last; otherwise
the element whose index is the (k-1)-th entry of the argsort, where
k = max(1, round(p/100 * n)). -/
def pct (values : List ℚ) (p : ℚ) : Option ℚ :=
  if values.length = 0 then none
  else if p ≤ 0 then values[0]?
  else if 100 ≤ p then values[values.length - 1]?
  else
    let k : ℕ := (max 1 (pyRound (p / 100 * (values.length : ℚ)))).toNat
    ((argsortIdx values)[k - 1]?).bind fun i => values[i]?

/-- Embeds Python's sorted() on a value list (ascending, stable). -/
def pySorted (x : List ℚ) : List ℚ :=
  List.insertionSort (· ≤ ·) x

/-- statistics.mean, guarded as in safe_mean: nan (none) on the empty list,
otherwise the arithmetic mean. -/
def safe_mean (x : List ℚ) : Option ℚ :=
  if x = [] then none else some (x.sum / (x.length : ℚ))

/-- statistics.variance (sample variance, denominator n-1). Only used on
lists of length at least two. -/
def pyVariance (x : List ℚ) : ℚ :=
  let m := x.sum / (x.length : ℚ)
  (x.map (fun v => (v - m) ^ 2)).sum / ((x.length : ℚ) - 1)

/-- Embeds safe_var: 0.0 whenever the list has fewer than two elements
(this includes the empty list), otherwise the sample variance. The except
branch of the source is unreachable because statistics.variance only raises
on fewer than two data points. -/
def safe_var (x : List ℚ) : Option ℚ :=
  if x.length < 2 then some 0 else some (pyVariance x)

/-- Embeds safe_med: statistics.median — nan (none) on the empty list, the
middle element of the sorted list for odd length, the average of the two
middle elements for even length. -/
def safe_med (x : List ℚ) : Option ℚ :=
  if x = [] then none
  else
    let s := pySorted x
    let n := s.length
    if n % 2 = 1 then some (s.getD (n / 2) 0)
    else some ((s.getD (n / 2 - 1) 0 + s.getD (n / 2) 0) / 2)

/-- Embeds safe_min: min(x) if x else nan. -/
def safe_min (x : List ℚ) : Option ℚ :=
  if x = [] then none else x.min?

/-- Embeds safe_max: max(x) if x else nan. -/
def safe_max (x : List ℚ) : Option ℚ :=
  if x = [] then none else x.max?

/-- Embeds q(x, p) of summarize: pct(sorted(x), p) if x else nan. -/
def q (x : List ℚ) (p : ℚ) : Option ℚ :=
  if x = [] then none else pct (pySorted x) p

/-- One per-request outcome row, as built by run_second. -/
structure RequestOutcome where
  ts_utc : Str
  uid : Str
  url : Str
  latency_sec : ℚ
  status : ℕ
  error : Str
deriving DecidableEq

/-- The triple returned by fetch_one: (latency, status, error message);
status 0 encodes a transport or timeout failure. -/
structure FetchResult where
  latency : ℚ
  status : ℕ
  error : Str
deriving DecidableEq

/-- One latency-statistics block (stats_all / stats_ok of summarize). -/
structure LatencyStats where
  count : ℕ
  mean : Option ℚ
  median : Option ℚ
  variance : Option ℚ
  min : Option ℚ
  p50 : Option ℚ
  p90 : Option ℚ
  p95 : Option ℚ
  p99 : Option ℚ
  max : Option ℚ
deriving DecidableEq

/-- The latency block computed by summarize over one value list; the count
field receives the length of the list it is computed over (n_total for the
all block, n_ok for the success block). -/
def latencyBlock (lat : List ℚ) : LatencyStats :=
  { count := lat.length
    mean := safe_mean lat
    median := safe_med lat
    variance := safe_var lat
    min := safe_min lat
    p50 := q lat 50
    p90 := q lat 90
    p95 := q lat 95
    p99 := q lat 99
    max := safe_max lat }

/-- The status-histogram key: str(status) if status else "error"; the error
label is modelled by none. -/
def statusKey (st : ℕ) : Option ℕ :=
  if st ≠ 0 then some st else none

/-- One dict-counter update: status_counts[key] = status_counts.get(key, 0) + 1
(insertion order of first occurrences is preserved, as in a Python dict). -/
def bump : List (Option ℕ × ℕ) → Option ℕ → List (Option ℕ × ℕ)
  | [], k => [(k, 1)]
  | (k', c) :: rest, k =>
      if k' = k then (k', c + 1) :: rest else (k', c) :: bump rest k

/-- The Summary dict returned by summarize. -/
structure Summary where
  total_requests : ℕ
  ok_requests : ℕ
  error_requests : ℕ
  error_rate : ℚ
  status_counts : List (Option ℕ × ℕ)
  latency_all : LatencyStats
  latency_success : LatencyStats
deriving DecidableEq

/-- Embeds summarize(results). -/
def summarize (results : List RequestOutcome) : Summary :=
  let lat_all := results.map (fun r => r.latency_sec)
  let lat_ok := (results.filter
    (fun r => decide (r.status ≠ 0 ∧ 200 ≤ r.status ∧ r.status < 400))).map
    (fun r => r.latency_sec)
  let n_total := results.length
  let n_ok := lat_ok.length
  let n_err := n_total - n_ok
  { total_requests := n_total
    ok_requests := n_ok
    error_requests := n_err
    error_rate := if n_total = 0 then 0 else (n_err : ℚ) / (n_total : ℚ)
    status_counts := results.foldl (fun m r => bump m (statusKey r.status)) []
    latency_all := latencyBlock lat_all
    latency_success := latencyBlock lat_ok }

/-- The URL built for one chosen identifier:
f-string base_url.rstrip('/') + "/s/" + u. -/
def mkUrl (base_url : Str) (u : Str) : Str :=
  pyRstrip '/' base_url ++ [ '/', 's', '/' ] ++ u

/-- Embeds run_second: draw batch_size identifiers from uids (randomness is
the pick oracle; random.choice returns the element at a random index below
the pool length, modelled by reducing pick's answer modulo the length),
build one URL per identifier, fetch all of them (network modelled by the
fetch oracle) and zip the three lists into outcome rows. -/
def run_second (base_url : Str) (uids : List Str) (batch_size : ℕ)
    (pick : ℕ → ℕ) (fetch : Str → FetchResult) (now_iso : Str) :
    List RequestOutcome :=
  let chosen := (List.range batch_size).map
    (fun j => uids.getD (pick j % uids.length) [])
  let urls := chosen.map (mkUrl base_url)
  let done := urls.map fetch
  (chosen.zip (urls.zip done)).map (fun (u, url, fr) =>
    { ts_utc := now_iso
      uid := u
      url := url
      latency_sec := fr.latency
      status := fr.status
      error := fr.error })

/-- The two output artifacts of a completed run: the raw results written row
by row to the CSV sink, and the summary document. -/
structure RunArtifacts where
  raw_results : List RequestOutcome
  summary : Summary

/-- Embeds the control flow of main_async: validate the configuration
(pool nonempty, batch size positive, duration positive) and raise SystemExit
with a message — before any file is created or any request issued — when a
check fails; otherwise run the per-second loop (the number of iterations the
monotonic deadline permitted is the nticks oracle, and the per-tick random
and network oracles are indexed by the tick) and produce both artifacts. -/
def main_async (uids_text : Str) (base_url : Str)
    (batch_size duration_sec : ℤ) (pick : ℕ → ℕ → ℕ)
    (fetch : ℕ → Str → FetchResult) (now_iso : Str) (nticks : ℕ) :
    Except Str RunArtifacts :=
  let uids := parse_uids_file uids_text
  if uids = [] then .error ("No UIDs found in file.".toList)
  else if batch_size ≤ 0 then .error ("--batch-size must be > 0".toList)
  else if duration_sec ≤ 0 then .error ("--duration-sec must be > 0".toList)
  else
    let results := (List.range nticks).flatMap
      (fun t => run_second base_url uids batch_size.toNat (pick t) (fetch t)
        now_iso)
    .ok { raw_results := results, summary := summarize results }

/-! ### Helper lemmas about the percentile machinery -/

theorem argsortIdx_perm (values : List ℚ) :
    (argsortIdx values).Perm (List.range values.length) :=
  List.perm_insertionSort _ _

theorem length_argsortIdx (values : List ℚ) :
    (argsortIdx values).length = values.length := by
  rw [(argsortIdx_perm values).length_eq, List.length_range]

theorem mem_argsortIdx {values : List ℚ} {i : ℕ} (h : i ∈ argsortIdx values) :
    i < values.length := by
  have := (argsortIdx_perm values).mem_iff.mp h
  exact List.mem_range.mp this

theorem map_range_getD (l : List ℚ) :
    (List.range l.length).map (fun i => l.getD i 0) = l := by
  apply List.ext_getElem
  · simp
  · intro n h₁ h₂
    simp only [List.getElem_map, List.getElem_range]
    exact List.getD_eq_getElem l 0 h₂

theorem map_argsortIdx (values : List ℚ) :
    (argsortIdx values).map (fun i => values.getD i 0) = pySorted values := by
  haveI ht : IsTotal ℕ (fun i j => values.getD i 0 ≤ values.getD j 0) :=
    ⟨fun i j => le_total _ _⟩
  haveI htr : IsTrans ℕ (fun i j => values.getD i 0 ≤ values.getD j 0) :=
    ⟨fun _ _ _ hab hbc => le_trans hab hbc⟩
  haveI ht' : IsTotal ℚ (· ≤ ·) := ⟨fun a b => le_total a b⟩
  haveI htr' : IsTrans ℚ (· ≤ ·) := ⟨fun _ _ _ hab hbc => le_trans hab hbc⟩
  apply List.eq_of_perm_of_sorted (r := (· ≤ ·))
  · have h1 : List.Perm ((argsortIdx values).map (fun i => values.getD i 0))
        ((List.range values.length).map (fun i => values.getD i 0)) :=
      (argsortIdx_perm values).map _
    rw [map_range_getD] at h1
    exact h1.trans (List.perm_insertionSort _ _).symm
  · exact List.Pairwise.map _ (fun _ _ h => h) (List.sorted_insertionSort _ _)
  · exact List.sorted_insertionSort _ _

theorem pySorted_eq_self {values : List ℚ} (h : values.Sorted (· ≤ ·)) :
    pySorted values = values := by
  haveI ht' : IsTotal ℚ (· ≤ ·) := ⟨fun a b => le_total a b⟩
  haveI htr' : IsTrans ℚ (· ≤ ·) := ⟨fun _ _ _ hab hbc => le_trans hab hbc⟩
  exact List.eq_of_perm_of_sorted (List.perm_insertionSort _ _)
    (List.sorted_insertionSort _ _) h

theorem pyRound_le_ceil (x : ℚ) : pyRound x ≤ ⌈x⌉ := by
  have hfc : ⌊x⌋ ≤ ⌈x⌉ := Int.floor_le_ceil x
  have hstep : ¬(x - (⌊x⌋ : ℚ) < 1 / 2) → ⌊x⌋ + 1 ≤ ⌈x⌉ := by
    intro hr
    have hhalf : (1 : ℚ) / 2 ≤ x - (⌊x⌋ : ℚ) := le_of_not_lt hr
    have h0 : (⌊x⌋ : ℚ) < x := by linarith
    exact Int.add_one_le_iff.mpr (Int.lt_ceil.mpr h0)
  unfold pyRound
  rw [pyFloor_eq]
  split_ifs with h1 h2 h3
  · exact hfc
  · exact hstep h1
  · exact hfc
  · exact hstep h1

/-- The 1-based rank computed in the general branch of pct. -/
def pctRank (n : ℕ) (p : ℚ) : ℕ :=
  (max 1 (pyRound (p / 100 * (n : ℚ)))).toNat

theorem pctRank_pos (n : ℕ) (p : ℚ) : 1 ≤ pctRank n p := by
  have h : (1 : ℤ) ≤ max 1 (pyRound (p / 100 * (n : ℚ))) := le_max_left _ _
  exact Int.toNat_le_toNat h

theorem pctRank_le (n : ℕ) (p : ℚ) (hn : 1 ≤ n) (hp : p < 100) :
    pctRank n p ≤ n := by
  have hx : p / 100 * (n : ℚ) ≤ (n : ℚ) := by
    have hn0 : (0 : ℚ) < (n : ℚ) := by exact_mod_cast hn
    have : p / 100 < 1 := by linarith
    nlinarith
  have hceil : ⌈p / 100 * (n : ℚ)⌉ ≤ (n : ℤ) := Int.ceil_le.mpr hx
  have hr : pyRound (p / 100 * (n : ℚ)) ≤ (n : ℤ) :=
    le_trans (pyRound_le_ceil _) hceil
  have hmax : max 1 (pyRound (p / 100 * (n : ℚ))) ≤ (n : ℤ) :=
    max_le (by exact_mod_cast hn) hr
  exact Int.toNat_le.mpr hmax

/-- The general branch of pct, expressed through the sorted values list:
for a nonempty list and 0 < p < 100, pct returns the entry of the stably
sorted list at index pctRank - 1. -/
theorem pct_middle (values : List ℚ) (p : ℚ) (hne : values ≠ [])
    (h0 : 0 < p) (h1 : p < 100) :
    ∃ hk : pctRank values.length p - 1 < (pySorted values).length,
      pct values p = some ((pySorted values)[pctRank values.length p - 1]) := by
  have hn : 1 ≤ values.length := List.length_pos.mpr hne
  have hk1 : 1 ≤ pctRank values.length p := pctRank_pos _ _
  have hk2 : pctRank values.length p ≤ values.length := pctRank_le _ _ hn h1
  have hlen : (pySorted values).length = values.length :=
    (List.perm_insertionSort _ _).length_eq
  have hk : pctRank values.length p - 1 < (pySorted values).length := by
    rw [hlen]; omega
  refine ⟨hk, ?_⟩
  have hka : pctRank values.length p - 1 < (argsortIdx values).length := by
    rw [length_argsortIdx]; omega
  unfold pct
  rw [if_neg (by omega), if_neg (not_le.mpr h0), if_neg (not_le.mpr h1)]
  show ((argsortIdx values)[pctRank values.length p - 1]?).bind
      (fun i => values[i]?) = _
  rw [List.getElem?_eq_getElem hka]
  have hidx : (argsortIdx values)[pctRank values.length p - 1] <
      values.length :=
    mem_argsortIdx (List.getElem_mem hka)
  simp only [Option.some_bind]
  rw [List.getElem?_eq_getElem hidx]
  have hmap := map_argsortIdx values
  have hopt : (pySorted values)[pctRank values.length p - 1]? =
      some (values.getD ((argsortIdx values)[pctRank values.length p - 1]) 0) := by
    rw [← hmap, List.getElem?_map, List.getElem?_eq_getElem hka]
    rfl
  rw [List.getElem?_eq_getElem hk] at hopt
  have hval := Option.some.inj hopt
  congr 1
  exact (hval.trans (List.getD_eq_getElem values 0 hidx)).symm

theorem foldl_min_of_le (a : ℚ) (l : List ℚ) (h : ∀ b ∈ l, a ≤ b) :
    l.foldl min a = a := by
  induction l generalizing a with
  | nil => rfl
  | cons b bs ih =>
    rw [List.foldl_cons, min_eq_left (h b (List.mem_cons_self b bs))]
    exact ih a (fun c hc => h c (List.mem_cons_of_mem _ hc))

theorem min?_of_sorted {values : List ℚ} (h : values.Sorted (· ≤ ·)) :
    values.min? = values[0]? := by
  cases values with
  | nil => rfl
  | cons a as =>
    have ha : ∀ b ∈ as, a ≤ b := (List.sorted_cons.mp h).1
    rw [List.min?_cons', foldl_min_of_le a as ha]
    simp

theorem foldl_max_sorted :
    ∀ (l : List ℚ) (a : ℚ), (a :: l).Sorted (· ≤ ·) →
      some (l.foldl max a) = (a :: l).getLast? := by
  intro l
  induction l with
  | nil => intro a _; rfl
  | cons b bs ih =>
    intro a h
    have hab : a ≤ b := (List.sorted_cons.mp h).1 b (List.mem_cons_self _ _)
    have h' : (b :: bs).Sorted (· ≤ ·) := (List.sorted_cons.mp h).2
    rw [List.foldl_cons, max_eq_right hab, List.getLast?_cons_cons]
    exact ih b h'

theorem max?_of_sorted {values : List ℚ} (h : values.Sorted (· ≤ ·)) :
    values.max? = values.getLast? := by
  cases values with
  | nil => rfl
  | cons a as =>
    rw [List.max?_cons']
    exact foldl_max_sorted as a h

/-! ### Claim theorems about pct -/

/-- Claim C10: pct is total — for every nonempty list it returns some element
of the list (the computed rank is always in bounds), and for the empty list
it returns the nan sentinel rather than raising. -/
theorem pct_total (values : List ℚ) (p : ℚ) :
    (values = [] → pct values p = none) ∧
    (values ≠ [] → ∃ v, pct values p = some v ∧ v ∈ values) := by
  constructor
  · intro h; subst h; rfl
  · intro hne
    have hn : 0 < values.length := List.length_pos.mpr hne
    by_cases h0 : p ≤ 0
    · refine ⟨values[0], ?_, List.getElem_mem hn⟩
      unfold pct
      rw [if_neg (by omega), if_pos h0, List.getElem?_eq_getElem hn]
    · by_cases h1 : 100 ≤ p
      · have hlast : values.length - 1 < values.length := by omega
        refine ⟨values[values.length - 1], ?_, List.getElem_mem hlast⟩
        unfold pct
        rw [if_neg (by omega), if_neg h0, if_pos h1,
          List.getElem?_eq_getElem hlast]
      · obtain ⟨hk, heq⟩ := pct_middle values p hne (lt_of_not_le h0)
          (lt_of_not_le h1)
        refine ⟨_, heq, ?_⟩
        exact (List.perm_insertionSort _ _).mem_iff.mp (List.getElem_mem hk)

/-- Witness for pct_total at the concrete list [3, 1, 2] and p = 50. -/
theorem pct_total_witness :
    pct ([] : List ℚ) 50 = none ∧
    ∃ v, pct [3, 1, 2] 50 = some v ∧ v ∈ ([3, 1, 2] : List ℚ) :=
  ⟨(pct_total [] 50).1 rfl, (pct_total [3, 1, 2] 50).2 (by decide)⟩

/-- Claim C1 counterexample: for the ascending list 10,...,100 of length 10
and p = 25, the code returns the value at rank max(1, round(2.5)) = 2
(round half to even gives 2), which is 20 — not the value 30 at rank
ceil(2.5) = 3 claimed by the nearest-rank-with-ceiling description. -/
theorem pct_not_ceil_rank :
    pct [10, 20, 30, 40, 50, 60, 70, 80, 90, 100] 25 = some 20 ∧
    (⌈(25 : ℚ) / 100 * 10⌉ : ℤ) = 3 ∧
    ([10, 20, 30, 40, 50, 60, 70, 80, 90, 100] : List ℚ)[3 - 1]? = some 30 := by
  refine ⟨?_, ?_, by decide⟩
  · have h : pyRound ((5 : ℚ) / 2) = 2 := by
      unfold pyRound pyFloor
      norm_num
    unfold pct
    norm_num [argsortIdx]
    rw [h]
    decide
  · rw [show ((25 : ℚ) / 100 * 10) = 5 / 2 by norm_num, Int.ceil_eq_iff]
    constructor <;> norm_num

/-- Claim C1 (amended): for every ascending-sorted nonempty list and every
p with 0 < p < 100, pct returns the value at 1-based rank
max(1, round_half_to_even(p/100 * n)) — banker's rounding of the scaled
rank, clamped below by 1, instead of the ceiling. -/
theorem pct_sorted_rank (values : List ℚ) (p : ℚ)
    (hs : values.Sorted (· ≤ ·)) (hne : values ≠ [])
    (h0 : 0 < p) (h1 : p < 100) :
    pct values p = values[pctRank values.length p - 1]? := by
  obtain ⟨hk, heq⟩ := pct_middle values p hne h0 h1
  rw [heq, ← List.getElem?_eq_getElem hk, pySorted_eq_self hs]

/-- Witness for pct_sorted_rank at the sorted list [1, 2, 3, 4], p = 50. -/
theorem pct_sorted_rank_witness :
    pct [1, 2, 3, 4] 50 =
      ([1, 2, 3, 4] : List ℚ)[pctRank ([1, 2, 3, 4] : List ℚ).length 50 - 1]? :=
  pct_sorted_rank [1, 2, 3, 4] 50 (by decide) (by decide) (by decide) (by decide)

/-- Claim C6 counterexample: for the unsorted nonempty list [3, 1], pct at
p = 0 returns the first element 3 while the minimum is 1 (and pct at 100
returns the last element 1 while the maximum is 3): without a sortedness
precondition, pct at the extremes is not min/max. -/
theorem pct_zero_not_min :
    pct [3, 1] 0 = some 3 ∧ ([3, 1] : List ℚ).min? = some 1 ∧
    pct [3, 1] 100 = some 1 ∧ ([3, 1] : List ℚ).max? = some 3 := by decide

/-- Claim C6 (amended): for every ascending-sorted nonempty list, pct at 0
is the minimum and pct at 100 is the maximum of the list. -/
theorem pct_zero_hundred_sorted (values : List ℚ)
    (hs : values.Sorted (· ≤ ·)) (hne : values ≠ []) :
    pct values 0 = values.min? ∧ pct values 100 = values.max? := by
  have hn : 0 < values.length := List.length_pos.mpr hne
  constructor
  · unfold pct
    rw [if_neg (by omega), if_pos le_rfl, min?_of_sorted hs]
  · unfold pct
    rw [if_neg (by omega), if_neg (by norm_num), if_pos le_rfl,
      max?_of_sorted hs, List.getLast?_eq_getElem?]

/-- Witness for pct_zero_hundred_sorted at the sorted list [1, 2]. -/
theorem pct_zero_hundred_sorted_witness :
    pct [1, 2] 0 = ([1, 2] : List ℚ).min? ∧
    pct [1, 2] 100 = ([1, 2] : List ℚ).max? :=
  pct_zero_hundred_sorted [1, 2] (by decide) (by decide)

/-- Claim C5: for a latency list holding exactly one value, the latency
block has variance exactly 0 (not the nan sentinel) and each of the four
percentiles p50/p90/p95/p99 equals that value. -/
theorem singleton_block (v : ℚ) :
    (latencyBlock [v]).variance = some 0 ∧
    (latencyBlock [v]).p50 = some v ∧
    (latencyBlock [v]).p90 = some v ∧
    (latencyBlock [v]).p95 = some v ∧
    (latencyBlock [v]).p99 = some v := by
  refine ⟨rfl, ?_, ?_, ?_, ?_⟩
  · show pct [v] 50 = some v
    have h : pyRound ((1 : ℚ) / 2) = 0 := by
      unfold pyRound pyFloor
      norm_num
    unfold pct
    norm_num [argsortIdx, h]
  · show pct [v] 90 = some v
    have h : pyRound ((9 : ℚ) / 10) = 1 := by
      unfold pyRound pyFloor
      norm_num
    unfold pct
    norm_num [argsortIdx, h]
  · show pct [v] 95 = some v
    have h : pyRound ((19 : ℚ) / 20) = 1 := by
      unfold pyRound pyFloor
      norm_num
    unfold pct
    norm_num [argsortIdx, h]
  · show pct [v] 99 = some v
    have h : pyRound ((99 : ℚ) / 100) = 1 := by
      unfold pyRound pyFloor
      norm_num
    unfold pct
    norm_num [argsortIdx, h]

/-! ### Claim theorems about summarize -/

/-- Claim C2 counterexample: on the empty outcome list the variance field of
the latency block is 0.0 (safe_var returns 0 whenever the list has fewer
than two elements, which includes the empty list), not the nan sentinel the
claim requires for every statistic. -/
theorem summarize_empty_variance_not_nan :
    (summarize []).latency_all.variance = some 0 ∧
    some (0 : ℚ) ≠ (none : Option ℚ) := by decide

/-- Claim C2 (amended): on the empty outcome list, summarize returns (never
raising — it is a total function) latency blocks with count 0 whose mean,
median, min, max and all four percentiles are the nan sentinel, while the
variance is 0, and the success block equals the all block. -/
theorem summarize_empty :
    (summarize []).latency_all.count = 0 ∧
    (summarize []).latency_all.mean = none ∧
    (summarize []).latency_all.median = none ∧
    (summarize []).latency_all.variance = some 0 ∧
    (summarize []).latency_all.min = none ∧
    (summarize []).latency_all.max = none ∧
    (summarize []).latency_all.p50 = none ∧
    (summarize []).latency_all.p90 = none ∧
    (summarize []).latency_all.p95 = none ∧
    (summarize []).latency_all.p99 = none ∧
    (summarize []).latency_success = (summarize []).latency_all := by decide

/-- Claim C7: an outcome is a success exactly when its status is nonzero and
in [200, 400); ok_requests counts those outcomes, error_requests is total
minus ok, and the success latency block is computed over exactly the
successful outcomes' latencies. -/
theorem summarize_success (results : List RequestOutcome) :
    (summarize results).ok_requests = (results.filter
      (fun r => decide (r.status ≠ 0 ∧ 200 ≤ r.status ∧ r.status < 400))).length ∧
    (summarize results).error_requests =
      (summarize results).total_requests - (summarize results).ok_requests ∧
    (summarize results).latency_success = latencyBlock ((results.filter
      (fun r => decide (r.status ≠ 0 ∧ 200 ≤ r.status ∧ r.status < 400))).map
      (fun r => r.latency_sec)) := by
  refine ⟨?_, rfl, rfl⟩
  exact List.length_map _ _

/-! ### Claim theorems about run_second -/

theorem mem_chosen {uids : List Str} {batch_size : ℕ} {pick : ℕ → ℕ}
    (hne : uids ≠ []) {x : Str}
    (hx : x ∈ (List.range batch_size).map
      (fun j => uids.getD (pick j % uids.length) [])) :
    x ∈ uids := by
  obtain ⟨j, _, hj⟩ := List.mem_map.mp hx
  have hlen : 0 < uids.length := List.length_pos.mpr hne
  have hidx : pick j % uids.length < uids.length := Nat.mod_lt _ hlen
  rw [← hj, List.getD_eq_getElem uids [] hidx]
  exact List.getElem_mem hidx

/-- Claim C3: for a nonempty pool, one batch returns exactly batch_size
outcomes and every outcome's identifier is an element of the pool. -/
theorem run_second_spec (base_url : Str) (uids : List Str) (batch_size : ℕ)
    (pick : ℕ → ℕ) (fetch : Str → FetchResult) (now_iso : Str)
    (hne : uids ≠ []) :
    (run_second base_url uids batch_size pick fetch now_iso).length =
      batch_size ∧
    ∀ r ∈ run_second base_url uids batch_size pick fetch now_iso,
      r.uid ∈ uids := by
  constructor
  · unfold run_second
    simp [List.length_zip, List.length_map, List.length_range]
  · intro r hr
    unfold run_second at hr
    obtain ⟨tup, htup, hrt⟩ := List.mem_map.mp hr
    obtain ⟨hu, _⟩ := List.of_mem_zip htup
    have huid : r.uid = tup.1 := by rw [← hrt]
    rw [huid]
    exact mem_chosen hne hu

/-- Witness for run_second_spec at a concrete two-element pool. -/
theorem run_second_spec_witness :
    (run_second ['b'] [['u'], ['w']] 2 (fun j => j)
      (fun _ => ⟨1, 200, []⟩) []).length = 2 ∧
    ∀ r ∈ run_second ['b'] [['u'], ['w']] 2 (fun j => j)
      (fun _ => ⟨1, 200, []⟩) [], r.uid ∈ [['u'], ['w']] :=
  run_second_spec ['b'] [['u'], ['w']] 2 (fun j => j)
    (fun _ => ⟨1, 200, []⟩) [] (by decide)

/-- Claim C9 counterexample: with base URL "b" and identifier "u" the
recorded URL is "b/s/u", not the plain concatenation "bu" of base URL and
identifier: the code inserts the fixed path segment "/s/" (after stripping
trailing slashes from the base URL). -/
theorem run_second_url_not_plain_append :
    ((run_second ['b'] [['u']] 1 (fun _ => 0)
      (fun _ => ⟨0, 200, []⟩) []).map (fun r => r.url)) =
      [['b', '/', 's', '/', 'u']] ∧
    ['b', '/', 's', '/', 'u'] ≠ ['b'] ++ ['u'] := by decide

/-- Claim C9 (amended): every outcome's URL is the base URL with trailing
slash characters removed, followed by the fixed segment "/s/", followed by
that outcome's identifier. -/
theorem run_second_url (base_url : Str) (uids : List Str) (batch_size : ℕ)
    (pick : ℕ → ℕ) (fetch : Str → FetchResult) (now_iso : Str) :
    ∀ r ∈ run_second base_url uids batch_size pick fetch now_iso,
      r.url = pyRstrip '/' base_url ++ [ '/', 's', '/' ] ++ r.uid := by
  intro r hr
  unfold run_second at hr
  obtain ⟨tup, htup, hrt⟩ := List.mem_map.mp hr
  obtain ⟨i, hi, htupi⟩ := List.mem_iff_getElem.mp htup
  subst htupi
  subst hrt
  simp only [List.get_eq_getElem, List.getElem_zip, List.getElem_map,
    List.getElem_range]
  rfl

/-- Witness for run_second_url at the single outcome of a concrete batch. -/
theorem run_second_url_witness :
    (⟨[], ['u'], ['b', '/', 's', '/', 'u'], 0, 200, []⟩ :
        RequestOutcome).url =
      pyRstrip '/' ['b'] ++ [ '/', 's', '/' ] ++
      (⟨[], ['u'], ['b', '/', 's', '/', 'u'], 0, 200, []⟩ :
        RequestOutcome).uid :=
  run_second_url ['b'] [['u']] 1 (fun _ => 0) (fun _ => ⟨0, 200, []⟩) []
    ⟨[], ['u'], ['b', '/', 's', '/', 'u'], 0, 200, []⟩ (by decide)

/-! ### Claim theorems about parse_uids_file -/

theorem idxOf_append_of_mem {a : Str} :
    ∀ {l₁ : List Str} (l₂ : List Str), a ∈ l₁ →
      (l₁ ++ l₂).indexOf a = l₁.indexOf a := by
  intro l₁
  induction l₁ with
  | nil => intro l₂ h; cases h
  | cons d t ih =>
    intro l₂ h
    rw [List.cons_append, List.indexOf_cons, List.indexOf_cons]
    cases hda : (d == a) with
    | true => rfl
    | false =>
      have hat : a ∈ t := by
        rcases List.mem_cons.mp h with h' | h'
        · exfalso
          rw [h'] at hda
          simp at hda
        · exact h'
      simp only [cond_false]
      rw [ih l₂ hat]

theorem idxOf_append_of_not_mem {a : Str} :
    ∀ {l₁ : List Str} (l₂ : List Str), a ∉ l₁ →
      (l₁ ++ l₂).indexOf a = l₁.length + l₂.indexOf a := by
  intro l₁
  induction l₁ with
  | nil => intro l₂ _; rw [List.nil_append, List.length_nil, Nat.zero_add]
  | cons d t ih =>
    intro l₂ h
    have hda : (d == a) = false := by
      cases hh : (d == a) with
      | false => rfl
      | true => exact absurd (List.mem_cons.mpr (Or.inl (eq_of_beq hh).symm)) h
    have hat : a ∉ t := fun h' => h (List.mem_cons.mpr (Or.inr h'))
    rw [List.cons_append, List.indexOf_cons, hda, cond_false, ih l₂ hat,
      List.length_cons]
    omega

theorem idxOf_lt_length {a : Str} :
    ∀ {l : List Str}, a ∈ l → l.indexOf a < l.length := by
  intro l
  induction l with
  | nil => intro h; cases h
  | cons d t ih =>
    intro h
    rw [List.indexOf_cons, List.length_cons]
    cases hda : (d == a) with
    | true => simp
    | false =>
      have hat : a ∈ t := by
        rcases List.mem_cons.mp h with h' | h'
        · exfalso
          rw [h'] at hda
          simp at hda
        · exact h'
      simp only [cond_false]
      have hlt := ih hat
      omega

theorem idxOf_cons_self (y : Str) (l : List Str) :
    (y :: l).indexOf y = 0 := by
  rw [List.indexOf_cons, beq_self_eq_true, cond_true]

/-- Invariant of the ordered-dict dedup fold: processing the remaining list
l with accumulator acc, where acc holds exactly the distinct elements of the
already-processed prefix pre in first-occurrence order of l₀ = pre ++ l,
yields a nodup list holding exactly the elements of l₀, ordered by first
occurrence in l₀. -/
theorem dedup_go (l₀ : List Str) :
    ∀ (l pre acc : List Str), l₀ = pre ++ l →
      (∀ x, x ∈ acc ↔ x ∈ pre) → acc.Nodup →
      acc.Pairwise (fun a b => l₀.indexOf a < l₀.indexOf b) →
      (l.foldl (fun acc x => if x ∈ acc then acc else acc ++ [x]) acc).Nodup ∧
      (∀ x, x ∈ l.foldl (fun acc x => if x ∈ acc then acc else acc ++ [x])
        acc ↔ x ∈ l₀) ∧
      (l.foldl (fun acc x => if x ∈ acc then acc else acc ++ [x])
        acc).Pairwise (fun a b => l₀.indexOf a < l₀.indexOf b) := by
  intro l
  induction l with
  | nil =>
    intro pre acc hsplit hmem hnd hpw
    rw [List.append_nil] at hsplit
    rw [List.foldl_nil]
    refine ⟨hnd, ?_, hpw⟩
    intro x
    rw [hmem, hsplit]
  | cons y ys ih =>
    intro pre acc hsplit hmem hnd hpw
    rw [List.foldl_cons]
    have hsplit' : l₀ = (pre ++ [y]) ++ ys := by
      rw [hsplit, List.append_assoc, List.singleton_append]
    by_cases hy : y ∈ acc
    · rw [if_pos hy]
      refine ih (pre ++ [y]) acc hsplit' ?_ hnd hpw
      intro x
      rw [hmem]
      constructor
      · exact fun h => List.mem_append_left _ h
      · intro h
        rcases List.mem_append.mp h with h' | h'
        · exact h'
        · rw [List.mem_singleton] at h'
          subst h'
          exact (hmem x).mp hy
    · rw [if_neg hy]
      have hynp : y ∉ pre := fun h => hy ((hmem y).mpr h)
      refine ih (pre ++ [y]) (acc ++ [y]) hsplit' ?_ ?_ ?_
      · intro x
        rw [List.mem_append, List.mem_append, hmem]
      · rw [List.nodup_append]
        refine ⟨hnd, List.nodup_singleton y, ?_⟩
        intro a ha hb
        rw [List.mem_singleton] at hb
        subst hb
        exact hy ha
      · rw [List.pairwise_append]
        refine ⟨hpw, List.pairwise_singleton _ _, ?_⟩
        intro a ha b hb
        rw [List.mem_singleton] at hb
        rw [hb]
        have hap : a ∈ pre := (hmem a).mp ha
        have h1 : l₀.indexOf a < pre.length := by
          rw [hsplit, idxOf_append_of_mem _ hap]
          exact idxOf_lt_length hap
        have h2 : l₀.indexOf y = pre.length := by
          rw [hsplit, idxOf_append_of_not_mem _ hynp, idxOf_cons_self,
            Nat.add_zero]
        omega

/-- Claim C4: the loaded pool has no duplicates and no empty strings, holds
exactly the trimmed nonempty tokens of the input (obtained by normalizing
newlines to commas, splitting on commas and trimming; see rawTokens), and is
ordered by first occurrence in the token list. -/
theorem parse_uids_file_spec (text : Str) :
    (parse_uids_file text).Nodup ∧
    (∀ s ∈ parse_uids_file text, s ≠ []) ∧
    (∀ s, s ∈ parse_uids_file text ↔ s ∈ rawTokens text) ∧
    (parse_uids_file text).Pairwise
      (fun a b => (rawTokens text).indexOf a < (rawTokens text).indexOf b) := by
  obtain ⟨h1, h2, h3⟩ := dedup_go (rawTokens text) (rawTokens text) [] []
    rfl (by simp) List.nodup_nil List.Pairwise.nil
  refine ⟨h1, ?_, h2, h3⟩
  intro s hs
  have hmem : s ∈ rawTokens text := (h2 s).mp hs
  have := List.mem_filter.mp hmem
  simpa using this.2

/-- Witness for parse_uids_file_spec at the concrete input "a,b\nb, ,a":
the loaded pool is nodup and its member "a" is nonempty. -/
theorem parse_uids_file_spec_witness :
    (parse_uids_file ("a,b\nb, ,a".toList)).Nodup ∧ (['a'] : Str) ≠ [] :=
  ⟨(parse_uids_file_spec ("a,b\nb, ,a".toList)).1,
   (parse_uids_file_spec ("a,b\nb, ,a".toList)).2.1 ['a'] (by decide)⟩

/-! ### Claim theorem about main_async -/

/-- Claim C8: the run fails with an error (raised before any output file is
created or any request issued) exactly on an invalid configuration — empty
pool, non-positive batch size, or non-positive duration — and any valid
configuration yields both output artifacts (raw results and summary),
regardless of how many requests failed. -/
theorem main_async_validation (uids_text base_url : Str)
    (batch_size duration_sec : ℤ) (pick : ℕ → ℕ → ℕ)
    (fetch : ℕ → Str → FetchResult) (now_iso : Str) (nticks : ℕ) :
    ((parse_uids_file uids_text = [] ∨ batch_size ≤ 0 ∨ duration_sec ≤ 0) →
      ∃ msg, main_async uids_text base_url batch_size duration_sec pick fetch
        now_iso nticks = .error msg) ∧
    (parse_uids_file uids_text ≠ [] → 0 < batch_size → 0 < duration_sec →
      ∃ art, main_async uids_text base_url batch_size duration_sec pick fetch
        now_iso nticks = .ok art) := by
  constructor
  · intro h
    unfold main_async
    by_cases h1 : parse_uids_file uids_text = []
    · rw [if_pos h1]
      exact ⟨_, rfl⟩
    · rw [if_neg h1]
      by_cases h2 : batch_size ≤ 0
      · rw [if_pos h2]
        exact ⟨_, rfl⟩
      · rw [if_neg h2]
        have h3 : duration_sec ≤ 0 := by tauto
        rw [if_pos h3]
        exact ⟨_, rfl⟩
  · intro h1 h2 h3
    unfold main_async
    rw [if_neg h1, if_neg (not_le.mpr h2), if_neg (not_le.mpr h3)]
    exact ⟨_, rfl⟩

/-- Witness for main_async_validation: an empty pool fails, and a valid
configuration whose every request fails (the fetch oracle always returns
status 0) still returns both artifacts. -/
theorem main_async_validation_witness :
    (∃ msg, main_async [] ['b'] 1 1 (fun _ _ => 0)
      (fun _ _ => ⟨1, 0, ['x']⟩) [] 1 = .error msg) ∧
    (∃ art, main_async ['u'] ['b'] 1 1 (fun _ _ => 0)
      (fun _ _ => ⟨1, 0, ['x']⟩) [] 1 = .ok art) :=
  ⟨(main_async_validation [] ['b'] 1 1 (fun _ _ => 0)
      (fun _ _ => ⟨1, 0, ['x']⟩) [] 1).1 (Or.inl (by decide)),
   (main_async_validation ['u'] ['b'] 1 1 (fun _ _ => 0)
      (fun _ _ => ⟨1, 0, ['x']⟩) [] 1).2 (by decide) (by decide) (by decide)⟩

end LoadTest
